import Mathlib

/-!
Shallow embedding of `core.go` of the zap-stackdriver repository: a zap
`Core` decorator that extracts Stackdriver error-reporting context fields,
renders the remaining fields inline into the message text, and forwards the
entry to a wrapped downstream core.

Conventions of the embedding:
- Go `int64` values are `Int`; Go integer division truncates toward zero,
  which is `Int.tdiv`.
- Go pointers that may be nil are `Option`.
- A Go `interface{}` payload (`zapcore.Field.Interface`) is the closed sum
  `Payload`; a failing type assertion is a panic, modelled as `Option.none`
  where the panic escapes (`extractCtx`), and as the recovered zero value
  where a deferred `recover` catches it (`fieldValueToString`).
- External library behaviour that the repository merely calls
  (`runtime.FuncForPC`, `time`/`strconv` float and time text renderings) is
  modelled by explicit function parameters or stand-in renderers; no claim
  depends on the exact text those produce.
-/

namespace Stackdriver

/-- Modelled from the spec: `HTTPRequest` is an opaque structured request
descriptor defined outside `core.go`; this layer treats it as opaque beyond
recognizing its reserved key. -/
structure HTTPRequest where
  data : Nat
deriving DecidableEq, Repr

/-- Modelled from the spec: `ServiceContext` is an opaque structured service
identity payload defined outside `core.go`. -/
structure ServiceContext where
  data : Nat
deriving DecidableEq, Repr

/-- Modelled from the spec: `ReportLocation` is the
{filePath, lineNumber, functionName} value object, defined outside `core.go`
but constructed in `getReportLocationFromEntry`. Absent function name is the
Go zero value `""`. -/
structure ReportLocation where
  FilePath : String := ""
  LineNumber : Int := 0
  FunctionName : String := ""
deriving DecidableEq, Repr

/-- Modelled from the spec: `Context` is the accumulated
{httpRequest, user, reportLocation} bundle, defined outside `core.go`.
Go nil pointers are `none`; the Go zero value of `User` is `""`. -/
structure Context where
  HTTPRequest : Option HTTPRequest := none
  User : String := ""
  ReportLocation : Option ReportLocation := none
deriving DecidableEq, Repr

/-- Modelled from the spec: `Context.Clone` (called by `cloneCtx` in
`core.go`, but defined outside it) produces a deep-enough copy of the
context; as a value, the copy is equal to the original. The heap model below
(`cloneCtxH`) additionally records that the copy is a fresh allocation. -/
def Context.Clone (c : Context) : Context := c

/-- The payload carried in a field's `Interface` slot (Go `interface{}`).
`stringer s` models any value implementing `fmt.Stringer` whose `String()`
returns `s`; `goError m` any value implementing `error` whose `Error()`
returns `m`; `timeFull t` a `time.Time` value; `arbitrary` any other payload
(in particular one that fails the type assertions in `core.go`);
`none` a nil interface. -/
inductive Payload where
  | none
  | httpRequest (r : HTTPRequest)
  | reportLocation (l : ReportLocation)
  | serviceContext (s : ServiceContext)
  | context (c : Context)
  | stringer (s : String)
  | goError (msg : String)
  | timeFull (t : Int)
  | arbitrary (tag : Nat)
deriving DecidableEq, Repr

/-- The `zapcore.FieldType` tags that the switch in `fieldValueToString`
distinguishes; `unknown` stands for any other tag value, which falls through
to the trailing `return ""`. -/
inductive FieldType where
  | arrayMarshaler
  | objectMarshaler
  | binary
  | bool
  | byteString
  | complex128
  | complex64
  | duration
  | float64
  | float32
  | int64
  | int32
  | int16
  | int8
  | string
  | time
  | timeFull
  | uint64
  | uint32
  | uint16
  | uint8
  | uintptr
  | reflect
  | namespace
  | stringer
  | error
  | skip
  | unknown
deriving DecidableEq, Repr

/-- `zapcore.Field`: {Key, Type, Integer, String, Interface}. The `String`
slot is named `Str` and the `Interface` slot `Intf` to avoid clashing with
the Lean types of the same names. -/
structure Field where
  Key : String
  Ty : FieldType
  Integer : Int := 0
  Str : String := ""
  Intf : Payload := .none
deriving DecidableEq, Repr

/-- The reserved-key constants of `core.go`. -/
def logKeyServiceContext : String := "serviceContext"

def logKeyContextHTTPRequest : String := "context.httpRequest"

def logKeyContextUser : String := "context.user"

def logKeyContextReportLocation : String := "context.reportLocation"

/-- `strconv.FormatInt(i, 10)`: the signed decimal rendering, which is
exactly `Int`'s `toString`. -/
def formatInt (i : Int) : String := toString i

/-- Stand-in for `strconv.FormatFloat(math.Float64frombits(uint64(i)), 'e', 2, 64)`:
the text of a float rendering is Go standard-library behaviour outside this
repository; no claim depends on it, only on the call being total. -/
def formatFloat64e2 (i : Int) : String := "float64:" ++ toString i

/-- Stand-in for the float32 variant of the same standard-library call. -/
def formatFloat32e2 (i : Int) : String := "float32:" ++ toString i

/-- Stand-in for `time.Unix(0, ns).String()`: Go standard-library calendar
text; total, no claim depends on the exact text. -/
def timeUnixString (ns : Int) : String := "time:" ++ toString ns

/-- Stand-in for `t.String()` on a carried `time.Time` value. -/
def timeFullString (t : Int) : String := "timeFull:" ++ toString t

/-- `fieldValueToString` of `core.go` as the caller observes it: the body's
type switch, with each arm whose type assertion can fail returning the
recovered zero value `""` when the payload does not match (the deferred
`recover` turns the panic into the zero-value return). -/
def fieldValueToString (field : Field) : String :=
  match field.Ty with
  | .arrayMarshaler => ""
  | .objectMarshaler => ""
  | .binary => ""
  | .bool => formatInt field.Integer
  | .byteString => ""
  | .complex128 => ""
  | .complex64 => ""
  | .duration => formatInt (Int.tdiv field.Integer 1000000)
  | .float64 => formatFloat64e2 field.Integer
  | .float32 => formatFloat32e2 field.Integer
  | .int64 => formatInt field.Integer
  | .int32 => formatInt field.Integer
  | .int16 => formatInt field.Integer
  | .int8 => formatInt field.Integer
  | .string => field.Str
  | .time => timeUnixString field.Integer
  | .timeFull =>
    match field.Intf with
    | .timeFull t => timeFullString t
    | _ => ""
  | .uint64 => formatInt field.Integer
  | .uint32 => formatInt field.Integer
  | .uint16 => formatInt field.Integer
  | .uint8 => formatInt field.Integer
  | .uintptr => formatInt field.Integer
  | .reflect => ""
  | .namespace => ""
  | .stringer =>
    match field.Intf with
    | .stringer s => s
    | _ => ""
  | .error =>
    match field.Intf with
    | .goError m => m
    | _ => ""
  | .skip => ""
  | .unknown => ""

/-- The pre-`recover` semantics of the same body: `none` where a type
assertion panics (`Interface.(time.Time)`, `Interface.(fmt.Stringer)`,
`Interface.(error)` on a non-matching payload), `some` of the returned
string otherwise. -/
def fieldValueToStringBody (field : Field) : Option String :=
  match field.Ty with
  | .arrayMarshaler => some ""
  | .objectMarshaler => some ""
  | .binary => some ""
  | .bool => some (formatInt field.Integer)
  | .byteString => some ""
  | .complex128 => some ""
  | .complex64 => some ""
  | .duration => some (formatInt (Int.tdiv field.Integer 1000000))
  | .float64 => some (formatFloat64e2 field.Integer)
  | .float32 => some (formatFloat32e2 field.Integer)
  | .int64 => some (formatInt field.Integer)
  | .int32 => some (formatInt field.Integer)
  | .int16 => some (formatInt field.Integer)
  | .int8 => some (formatInt field.Integer)
  | .string => some field.Str
  | .time => some (timeUnixString field.Integer)
  | .timeFull =>
    match field.Intf with
    | .timeFull t => some (timeFullString t)
    | _ => none
  | .uint64 => some (formatInt field.Integer)
  | .uint32 => some (formatInt field.Integer)
  | .uint16 => some (formatInt field.Integer)
  | .uint8 => some (formatInt field.Integer)
  | .uintptr => some (formatInt field.Integer)
  | .reflect => some ""
  | .namespace => some ""
  | .stringer =>
    match field.Intf with
    | .stringer s => some s
    | _ => none
  | .error =>
    match field.Intf with
    | .goError m => some m
    | _ => none
  | .skip => some ""
  | .unknown => some ""

/-- The caller metadata of a `zapcore.Entry` (`zapcore.EntryCaller`):
`Defined`, file, line and program counter. -/
structure EntryCaller where
  Defined : Bool := false
  File : String := ""
  Line : Int := 0
  PC : Nat := 0
deriving DecidableEq, Repr

/-- The internal log levels (`zapcore.Level` values that `core.go` names). -/
inductive Level where
  | debug
  | info
  | warn
  | error
  | dpanic
  | panic
  | fatal
deriving DecidableEq, Repr

/-- The parts of `zapcore.Entry` that `core.go` reads or writes: the level,
the mutable message text and the caller metadata. -/
structure Entry where
  Level : Level := .info
  Message : String := ""
  Caller : EntryCaller := {}
deriving DecidableEq, Repr

/-- The decorator `Core` of `core.go`: the location-capture flag and the
accumulated context pointer (`nil` = `none`). The embedded downstream
`zapcore.Core` is an external collaborator; `Write` and `With` below return
what is forwarded to it instead of carrying it in the structure. -/
structure Core where
  SetReportLocation : Bool := false
  ctx : Option Context := none
deriving DecidableEq, Repr

/-- `cloneCtx`: a fresh empty context when `c.ctx` is nil, otherwise
`c.ctx.Clone()`. -/
def cloneCtx (c : Core) : Context :=
  match c.ctx with
  | none => {}
  | some ctx => ctx.Clone

/-- The loop body of `extractCtx`: iterate the fields in order, writing
reserved-key fields onto the context's slots and appending all others to
`output`. A failed type assertion (`f.Interface.(*HTTPRequest)` or
`f.Interface.(*ReportLocation)` on a non-matching payload) panics out of
`extractCtx`, modelled as `none`. -/
def extractCtxGo : List Field → List Field → Context → Option (List Field × Context)
  | [], output, ctx => some (output, ctx)
  | f :: rest, output, ctx =>
    if f.Key == logKeyContextHTTPRequest then
      match f.Intf with
      | .httpRequest r => extractCtxGo rest output { ctx with HTTPRequest := some r }
      | _ => none
    else if f.Key == logKeyContextReportLocation then
      match f.Intf with
      | .reportLocation l => extractCtxGo rest output { ctx with ReportLocation := some l }
      | _ => none
    else if f.Key == logKeyContextUser then
      extractCtxGo rest output { ctx with User := f.Str }
    else
      extractCtxGo rest (output ++ [f]) ctx

/-- `extractCtx`: partition `fields` into the non-context output and the
context slots merged onto a clone of the receiver's context. -/
def extractCtx (c : Core) (fields : List Field) : Option (List Field × Context) :=
  extractCtxGo fields [] (cloneCtx c)

/-- `zap.Object(key, marshaler)`: an object-marshaler field carrying the
marshaler in its `Interface` slot. -/
def zapObject (key : String) (p : Payload) : Field :=
  { Key := key, Ty := .objectMarshaler, Intf := p }

/-- `zap.String(key, s)`. -/
def zapString (key : String) (s : String) : Field :=
  { Key := key, Ty := .string, Str := s }

/-- `LogServiceContext(ctx)`. -/
def LogServiceContext (ctx : ServiceContext) : Field :=
  zapObject logKeyServiceContext (.serviceContext ctx)

/-- `LogHTTPRequest(req)`. -/
def LogHTTPRequest (req : HTTPRequest) : Field :=
  zapObject logKeyContextHTTPRequest (.httpRequest req)

/-- `LogUser(user)`. -/
def LogUser (user : String) : Field :=
  zapString logKeyContextUser user

/-- `LogReportLocation(loc)`. -/
def LogReportLocation (loc : ReportLocation) : Field :=
  zapObject logKeyContextReportLocation (.reportLocation loc)

/-- `With`: partition the fields against the receiver's context and return a
new `Core` carrying the merged context (the downstream core is derived with
the non-context fields, which the model returns alongside). Panics out of
`extractCtx` propagate, modelled as `none`. -/
def With (c : Core) (fields : List Field) : Option (Core × List Field) :=
  match extractCtx c fields with
  | none => none
  | some (fields', ctx) =>
    some ({ SetReportLocation := c.SetReportLocation, ctx := some ctx }, fields')

/-- `getReportLocationFromEntry`: `funcForPC` models `runtime.FuncForPC`,
the Go runtime's resolution of a program counter to a function name (`none`
= nil `*runtime.Func`), an external input. -/
def getReportLocationFromEntry (funcForPC : Nat → Option String) (c : Core)
    (entry : Entry) : Option ReportLocation :=
  if !c.SetReportLocation then
    none
  else if !entry.Caller.Defined then
    none
  else
    let loc : ReportLocation :=
      { FilePath := entry.Caller.File, LineNumber := entry.Caller.Line }
    match funcForPC entry.Caller.PC with
    | some name => some { loc with FunctionName := name }
    | none => some loc

/-- The first phase of `Write`: append `LogReportLocation(loc)` to the
caller's fields when a location was captured. -/
def writeLocFields (funcForPC : Nat → Option String) (c : Core) (entry : Entry)
    (fields : List Field) : List Field :=
  match getReportLocationFromEntry funcForPC c entry with
  | some loc => fields ++ [LogReportLocation loc]
  | none => fields

/-- `appendFields`: append `" key=value"` for each field to `str`, skipping
every field whose key is `"context"`. (`fmt.Sprintf("%v", s)` on a string
`s` is `s`.) -/
def appendFields (str : String) (fields : List Field) : String :=
  fields.foldl
    (fun acc field =>
      if field.Key == "context" then acc
      else acc ++ " " ++ field.Key ++ "=" ++ fieldValueToString field)
    str

/-- `Write`: capture the report location, partition the fields, append the
merged context as the `"context"` object field, render the fields inline
into the message, and forward entry and fields to the downstream core
(returned here). A panic from `extractCtx` is `none`. -/
def Write (funcForPC : Nat → Option String) (c : Core) (entry : Entry)
    (fields : List Field) : Option (Entry × List Field) :=
  match extractCtx c (writeLocFields funcForPC c entry fields) with
  | none => none
  | some (fields', ctx) =>
    let fields'' := fields' ++ [zapObject "context" (.context ctx)]
    some ({ entry with Message := appendFields entry.Message fields'' }, fields'')

/-- `logLevelSeverity`: the severity table. -/
def logLevelSeverity : Level → String
  | .debug => "DEBUG"
  | .info => "INFO"
  | .warn => "WARNING"
  | .error => "ERROR"
  | .dpanic => "CRITICAL"
  | .panic => "ALERT"
  | .fatal => "EMERGENCY"

/-- `EncodeLevel`: appends the severity token to the primitive array encoder,
modelled as the list of appended strings. -/
def EncodeLevel (lv : Level) (enc : List String) : List String :=
  enc ++ [logLevelSeverity lv]

/-! ### Heap-instrumented model of cloning and derivation

`core.go` holds and mutates `*Context` values. To state that `With` never
mutates a pre-existing context object (it writes only to the clone it just
allocated), contexts are placed in an explicit heap: a pointer is an index
into a list of allocated `Context` objects. -/

/-- A pointer to a heap-allocated `Context`. -/
abbrev Ptr := Nat

/-- The heap of allocated `Context` objects. -/
structure Heap where
  store : List Context
deriving DecidableEq, Repr

/-- Dereference a pointer (out-of-range reads never occur; they default). -/
def Heap.get (h : Heap) (p : Ptr) : Context := h.store.getD p {}

/-- Allocate a fresh `Context` object, returning its pointer. -/
def Heap.alloc (h : Heap) (c : Context) : Heap × Ptr :=
  ({ store := h.store ++ [c] }, h.store.length)

/-- Write through a pointer. -/
def Heap.put (h : Heap) (p : Ptr) (c : Context) : Heap :=
  { store := h.store.set p c }

/-- `Core` with its `ctx` pointer made explicit (`nil` = `none`). -/
structure CoreH where
  SetReportLocation : Bool := false
  ctx : Option Ptr := none
deriving DecidableEq, Repr

/-- `cloneCtx` in the heap model: `&Context{}` allocates a fresh empty
object; `c.ctx.Clone()` allocates a fresh object holding a copy of the
pointee (`Context.Clone` is modelled from the spec as a deep-enough copy,
so the new object shares no mutable state with the old). -/
def cloneCtxH (h : Heap) (c : CoreH) : Heap × Ptr :=
  match c.ctx with
  | none => h.alloc {}
  | some p => h.alloc (h.get p).Clone

/-- The `extractCtx` loop in the heap model: every slot write
(`ctx.HTTPRequest = ...`, etc.) goes through the single pointer `p` returned
by `cloneCtxH`. -/
def extractCtxHGo (h : Heap) (p : Ptr) :
    List Field → List Field → Option (Heap × List Field × Ptr)
  | [], output => some (h, output, p)
  | f :: rest, output =>
    if f.Key == logKeyContextHTTPRequest then
      match f.Intf with
      | .httpRequest r =>
        extractCtxHGo (h.put p { h.get p with HTTPRequest := some r }) p rest output
      | _ => none
    else if f.Key == logKeyContextReportLocation then
      match f.Intf with
      | .reportLocation l =>
        extractCtxHGo (h.put p { h.get p with ReportLocation := some l }) p rest output
      | _ => none
    else if f.Key == logKeyContextUser then
      extractCtxHGo (h.put p { h.get p with User := f.Str }) p rest output
    else
      extractCtxHGo h p rest (output ++ [f])

/-- `extractCtx` in the heap model: clone, then run the loop on the fresh
pointer. -/
def extractCtxH (h : Heap) (c : CoreH) (fields : List Field) :
    Option (Heap × List Field × Ptr) :=
  extractCtxHGo (cloneCtxH h c).1 (cloneCtxH h c).2 fields []

/-- `With` in the heap model: the new node points at the freshly merged
clone; the receiver is untouched. -/
def WithH (h : Heap) (c : CoreH) (fields : List Field) :
    Option (Heap × CoreH × List Field) :=
  match extractCtxH h c fields with
  | none => none
  | some (h', fields', p) =>
    some (h', { SetReportLocation := c.SetReportLocation, ctx := some p }, fields')

/-! ### Specification-side definitions

These restate parts of the spec's wording, to be compared with the
definitions above (which are translated from the source). -/

/-- The three reserved context keys of the spec's partition contract. -/
def reservedKey (k : String) : Bool :=
  k == logKeyContextHTTPRequest || k == logKeyContextUser ||
    k == logKeyContextReportLocation

/-- A field whose payload matches what its reserved key's context slot
expects (non-reserved keys are unconstrained). Spec section 7 marks a
reserved key with a wrong-shaped payload as a misuse fault / undefined
behaviour; in the code it is a panic. -/
def wellShaped (f : Field) : Bool :=
  (if f.Key == logKeyContextHTTPRequest then
    match f.Intf with
    | .httpRequest _ => true
    | _ => false
  else true) &&
  (if f.Key == logKeyContextReportLocation then
    match f.Intf with
    | .reportLocation _ => true
    | _ => false
  else true)

/-- Spec wording of one partition step: write a reserved-key field's value
onto the corresponding slot, leave the context unchanged otherwise. -/
def applyCtxField (ctx : Context) (f : Field) : Context :=
  if f.Key == logKeyContextHTTPRequest then
    match f.Intf with
    | .httpRequest r => { ctx with HTTPRequest := some r }
    | _ => ctx
  else if f.Key == logKeyContextReportLocation then
    match f.Intf with
    | .reportLocation l => { ctx with ReportLocation := some l }
    | _ => ctx
  else if f.Key == logKeyContextUser then
    { ctx with User := f.Str }
  else
    ctx

/-- Spec wording of the inline rendering appended to a message: one
`" key=value"` chunk per field, in order (with `"context"`-keyed fields
contributing nothing, as `appendFields` skips them). -/
def inlineRender : List Field → String
  | [] => ""
  | f :: rest =>
    (if f.Key == "context" then "" else " " ++ f.Key ++ "=" ++ fieldValueToString f)
      ++ inlineRender rest

/-- `int64(v)` for an unsigned 64-bit `v`: zap's unsigned field constructors
(`zap.Uint64` etc.) store the value two's-complement in the signed `Integer`
slot. -/
def toInt64 (v : Nat) : Int :=
  if v < 2 ^ 63 then (v : Int) else (v : Int) - 2 ^ 64

/-- A zap unsigned-integer field of the given width tag carrying the
unsigned value `v` (modelling `zap.Uint64`/`Uint32`/`Uint16`/`Uint8`/
`Uintptr`, which all store `int64(v)`). -/
def uintField (ty : FieldType) (key : String) (v : Nat) : Field :=
  { Key := key, Ty := ty, Integer := toInt64 v }

/-- `zap.Bool(key, b)`: the boolean is stored as `1`/`0` in `Integer`. -/
def boolField (key : String) (b : Bool) : Field :=
  { Key := key, Ty := .bool, Integer := if b then 1 else 0 }

/-- `zap.Duration(key, d)`: the duration's nanosecond count in `Integer`. -/
def durationField (key : String) (ns : Int) : Field :=
  { Key := key, Ty := .duration, Integer := ns }

/-! ### Helper lemmas -/

lemma reservedKey_http : reservedKey logKeyContextHTTPRequest = true := by decide

lemma reservedKey_rl : reservedKey logKeyContextReportLocation = true := by decide

lemma reservedKey_user : reservedKey logKeyContextUser = true := by decide

/-- The `extractCtx` loop, on a well-shaped field list, returns the
accumulator followed by the non-reserved fields, and the left fold of the
spec's slot-write step over the context. -/
lemma extractCtxGo_spec (fields : List Field) :
    ∀ (out : List Field) (ctx : Context),
      (∀ f ∈ fields, wellShaped f = true) →
      extractCtxGo fields out ctx =
        some (out ++ fields.filter (fun f => !reservedKey f.Key),
              fields.foldl applyCtxField ctx) := by
  induction fields with
  | nil => intro out ctx _; simp [extractCtxGo]
  | cons f rest ih =>
    intro out ctx h
    have hf : wellShaped f = true := h f (by simp)
    have hrest : ∀ g ∈ rest, wellShaped g = true := fun g hg => h g (by simp [hg])
    rw [wellShaped, Bool.and_eq_true] at hf
    by_cases h1 : (f.Key == logKeyContextHTTPRequest) = true
    · have h1' : f.Key = logKeyContextHTTPRequest := by simpa using h1
      have hf1 := hf.1
      rw [if_pos h1] at hf1
      rw [extractCtxGo, if_pos h1]
      cases hI : f.Intf <;> rw [hI] at hf1 <;>
        first
        | (dsimp only []
           rw [ih out _ hrest]
           simp [h1', reservedKey_http, applyCtxField, hI])
        | simp at hf1
    · by_cases h2 : (f.Key == logKeyContextReportLocation) = true
      · have h2' : f.Key = logKeyContextReportLocation := by simpa using h2
        have hf2 := hf.2
        rw [if_pos h2] at hf2
        rw [extractCtxGo, if_neg h1, if_pos h2]
        cases hI : f.Intf <;> rw [hI] at hf2 <;>
          first
          | (dsimp only []
             rw [ih out _ hrest]
             simp [h2', reservedKey_rl, applyCtxField, hI,
               show (logKeyContextReportLocation == logKeyContextHTTPRequest) = false by
                 decide])
          | simp at hf2
      · by_cases h3 : (f.Key == logKeyContextUser) = true
        · have h3' : f.Key = logKeyContextUser := by simpa using h3
          rw [extractCtxGo, if_neg h1, if_neg h2, if_pos h3]
          rw [ih out _ hrest]
          simp [h3', applyCtxField, reservedKey_user,
            show (logKeyContextUser == logKeyContextHTTPRequest) = false by decide,
            show (logKeyContextUser == logKeyContextReportLocation) = false by decide]
        · have hres : reservedKey f.Key = false := by
            simp only [reservedKey, Bool.or_eq_false_iff]
            exact ⟨⟨by simpa using h1, by simpa using h3⟩, by simpa using h2⟩
          rw [extractCtxGo, if_neg h1, if_neg h2, if_neg h3]
          rw [ih (out ++ [f]) _ hrest]
          simp [applyCtxField, h1, h2, h3, hres]

/-- On success, the `extractCtx` loop's output is the accumulator followed
by exactly the non-reserved input fields, in order (no well-shapedness
needed: success already means every assertion passed). -/
lemma extractCtxGo_output (fields : List Field) :
    ∀ (out o : List Field) (ctx c' : Context),
      extractCtxGo fields out ctx = some (o, c') →
      o = out ++ fields.filter (fun f => !reservedKey f.Key) := by
  induction fields with
  | nil =>
    intro out o ctx c' h
    simp only [extractCtxGo, Option.some.injEq, Prod.mk.injEq] at h
    simp [← h.1]
  | cons f rest ih =>
    intro out o ctx c' h
    by_cases h1 : (f.Key == logKeyContextHTTPRequest) = true
    · have h1' : f.Key = logKeyContextHTTPRequest := by simpa using h1
      rw [extractCtxGo, if_pos h1] at h
      cases hI : f.Intf <;> rw [hI] at h <;>
        first
        | (rw [ih _ _ _ _ h]
           simp [h1', reservedKey_http])
        | simp at h
    · by_cases h2 : (f.Key == logKeyContextReportLocation) = true
      · have h2' : f.Key = logKeyContextReportLocation := by simpa using h2
        rw [extractCtxGo, if_neg h1, if_pos h2] at h
        cases hI : f.Intf <;> rw [hI] at h <;>
          first
          | (rw [ih _ _ _ _ h]
             simp [h2', reservedKey_rl])
          | simp at h
      · by_cases h3 : (f.Key == logKeyContextUser) = true
        · have h3' : f.Key = logKeyContextUser := by simpa using h3
          rw [extractCtxGo, if_neg h1, if_neg h2, if_pos h3] at h
          rw [ih _ _ _ _ h]
          simp [h3', reservedKey_user]
        · have hres : reservedKey f.Key = false := by
            simp only [reservedKey, Bool.or_eq_false_iff]
            exact ⟨⟨by simpa using h1, by simpa using h3⟩, by simpa using h2⟩
          rw [extractCtxGo, if_neg h1, if_neg h2, if_neg h3] at h
          rw [ih _ _ _ _ h]
          simp [hres]

/-- The `extractCtx` loop over an appended list runs the two halves in
sequence. -/
lemma extractCtxGo_append (fs gs : List Field) :
    ∀ (out : List Field) (ctx : Context),
      extractCtxGo (fs ++ gs) out ctx =
        match extractCtxGo fs out ctx with
        | none => none
        | some (o, c) => extractCtxGo gs o c := by
  induction fs with
  | nil => intro out ctx; simp [extractCtxGo]
  | cons f rest ih =>
    intro out ctx
    rw [List.cons_append, extractCtxGo, extractCtxGo]
    by_cases h1 : (f.Key == logKeyContextHTTPRequest) = true
    · rw [if_pos h1, if_pos h1]
      cases f.Intf <;> simp [ih]
    · rw [if_neg h1, if_neg h1]
      by_cases h2 : (f.Key == logKeyContextReportLocation) = true
      · rw [if_pos h2, if_pos h2]
        cases f.Intf <;> simp [ih]
      · rw [if_neg h2, if_neg h2]
        by_cases h3 : (f.Key == logKeyContextUser) = true
        · rw [if_pos h3, if_pos h3]
          exact ih _ _
        · rw [if_neg h3, if_neg h3]
          exact ih _ _

/-- Writing through one pointer leaves every other pointer's contents
unchanged. -/
lemma Heap.get_put_ne (h : Heap) (p q : Ptr) (c : Context) (hne : q ≠ p) :
    (h.put p c).get q = h.get q := by
  simp [Heap.get, Heap.put, List.getD_eq_getElem?_getD,
    List.getElem?_set_ne (Ne.symm hne)]

/-- Writing through a pointer preserves the number of allocated objects. -/
lemma Heap.put_length (h : Heap) (p : Ptr) (c : Context) :
    (h.put p c).store.length = h.store.length := by
  simp [Heap.put]

/-- The `extractCtx` loop writes only through the pointer it was given: on
success it returns that same pointer, allocates nothing, and leaves the
contents of every other pointer unchanged. -/
lemma extractCtxHGo_frame (fields : List Field) :
    ∀ (out : List Field) (h : Heap) (p : Ptr) (h' : Heap) (o' : List Field)
      (p' : Ptr),
      extractCtxHGo h p fields out = some (h', o', p') →
      p' = p ∧ h'.store.length = h.store.length ∧
        ∀ q : Ptr, q ≠ p → h'.get q = h.get q := by
  induction fields with
  | nil =>
    intro out h p h' o' p' hh
    simp only [extractCtxHGo, Option.some.injEq, Prod.mk.injEq] at hh
    obtain ⟨h1, _, h3⟩ := hh
    subst h1; subst h3
    exact ⟨rfl, rfl, fun _ _ => rfl⟩
  | cons f rest ih =>
    intro out h p h' o' p' hh
    by_cases h1 : (f.Key == logKeyContextHTTPRequest) = true
    · rw [extractCtxHGo, if_pos h1] at hh
      cases hI : f.Intf <;> rw [hI] at hh <;> (try dsimp only [] at hh)
      any_goals exact Option.noConfusion hh
      obtain ⟨e1, e2, e3⟩ := ih _ _ _ _ _ _ hh
      exact ⟨e1, by rw [e2, Heap.put_length],
        fun q hq => by rw [e3 q hq, Heap.get_put_ne _ _ _ _ hq]⟩
    · by_cases h2 : (f.Key == logKeyContextReportLocation) = true
      · rw [extractCtxHGo, if_neg h1, if_pos h2] at hh
        cases hI : f.Intf <;> rw [hI] at hh <;> (try dsimp only [] at hh)
        any_goals exact Option.noConfusion hh
        obtain ⟨e1, e2, e3⟩ := ih _ _ _ _ _ _ hh
        exact ⟨e1, by rw [e2, Heap.put_length],
          fun q hq => by rw [e3 q hq, Heap.get_put_ne _ _ _ _ hq]⟩
      · by_cases h3 : (f.Key == logKeyContextUser) = true
        · rw [extractCtxHGo, if_neg h1, if_neg h2, if_pos h3] at hh
          obtain ⟨e1, e2, e3⟩ := ih _ _ _ _ _ _ hh
          exact ⟨e1, by rw [e2, Heap.put_length],
            fun q hq => by rw [e3 q hq, Heap.get_put_ne _ _ _ _ hq]⟩
        · rw [extractCtxHGo, if_neg h1, if_neg h2, if_neg h3] at hh
          exact ih _ _ _ _ _ _ hh

/-- `cloneCtxH` allocates: the returned pointer is the old allocation count
and the store grows by exactly the one cloned object. -/
lemma cloneCtxH_spec (h : Heap) (c : CoreH) :
    (cloneCtxH h c).2 = h.store.length ∧
      ∃ x : Context, (cloneCtxH h c).1.store = h.store ++ [x] := by
  cases hc : c.ctx <;> simp [cloneCtxH, hc, Heap.alloc]

/-- `appendFields` appends exactly the inline rendering of the fields. -/
lemma appendFields_eq (fields : List Field) :
    ∀ str : String, appendFields str fields = str ++ inlineRender fields := by
  induction fields with
  | nil => intro str; simp [appendFields, inlineRender]
  | cons f rest ih =>
    intro str
    have step : appendFields str (f :: rest) =
        appendFields (if (f.Key == "context") = true then str
          else str ++ " " ++ f.Key ++ "=" ++ fieldValueToString f) rest := rfl
    rw [step]
    by_cases hc : (f.Key == "context") = true
    · rw [if_pos hc, ih]
      simp [inlineRender, hc]
    · rw [if_neg hc, ih]
      simp [inlineRender, hc, String.append_assoc]

/-- The inline rendering distributes over list append. -/
lemma inlineRender_append (xs ys : List Field) :
    inlineRender (xs ++ ys) = inlineRender xs ++ inlineRender ys := by
  induction xs with
  | nil => simp [inlineRender]
  | cons f rest ih => simp [inlineRender, ih, String.append_assoc]

/-- One `extractCtx` loop step on a single report-location field writes the
location onto the context's slot. -/
lemma extractCtxGo_single_rl (o : List Field) (ctx : Context)
    (l : ReportLocation) :
    extractCtxGo [LogReportLocation l] o ctx =
      some (o, { ctx with ReportLocation := some l }) := rfl

/-! ### Claim theorems -/

/-- Claim C1: for every input field list whose reserved-key fields carry
well-shaped payloads (spec section 7 marks the wrong-shaped case as a misuse
fault / undefined behaviour; in the code it panics) and every base context,
`extractCtx` removes every reserved-key field from the ordinary output,
passes every other field through unchanged preserving order, and returns the
clone of the base context with the reserved fields' values written onto the
corresponding slots in input order, so later occurrences overwrite earlier
ones (last-write-wins). -/
theorem extractCtx_partition (c : Core) (fields : List Field)
    (h : ∀ f ∈ fields, wellShaped f = true) :
    extractCtx c fields =
      some (fields.filter (fun f => !reservedKey f.Key),
            fields.foldl applyCtxField (cloneCtx c)) := by
  rw [extractCtx, extractCtxGo_spec fields [] (cloneCtx c) h]
  simp

/-- Claim C1, witness: a batch with a user field, two httpRequest fields
(the second wins) and one ordinary field, against a non-empty base
context. -/
theorem extractCtx_partition_witness :
    extractCtx { SetReportLocation := false, ctx := some { User := "base" } }
        [LogUser "alice", LogHTTPRequest ⟨1⟩, zapString "foo" "bar",
          LogHTTPRequest ⟨2⟩] =
      some ([zapString "foo" "bar"],
        { HTTPRequest := some ⟨2⟩, User := "alice", ReportLocation := none }) :=
  Eq.trans (extractCtx_partition _ _ (by decide)) (by decide)

/-- Claim C2: the field renderer is total and never propagates a failure:
its observed result is the pre-`recover` body's string when no type
assertion fails, and degrades to the empty string when the body panics
(malformed stringer, error or time payloads included). -/
theorem fieldValueToString_total (f : Field) :
    fieldValueToString f = (fieldValueToStringBody f).getD "" := by
  obtain ⟨k, ty, i, s, p⟩ := f
  cases ty <;> first | rfl | (cases p <;> rfl)

/-- Claim C3, counterexample: an ordinary (non-reserved) field whose key is
"context" survives the partition into the ordinary output, yet `Write`
appends nothing for it — the message stays "m" instead of "m context=x" —
so an ordinary field is further skipped, contrary to the claim. -/
theorem write_skips_context_key_cex :
    extractCtx {} [⟨"context", .string, 0, "x", .none⟩] =
      some ([⟨"context", .string, 0, "x", .none⟩], {}) ∧
    (Write (fun _ => none) {} { Message := "m" }
        [⟨"context", .string, 0, "x", .none⟩]).map (fun r => r.1.Message) =
      some "m" ∧
    ("m" : String) ≠
      "m" ++ " " ++ "context" ++ "=" ++
        fieldValueToString ⟨"context", .string, 0, "x", .none⟩ :=
  ⟨by decide, by decide, by decide⟩

/-- Claim C3, corrected: in `Write`, every ordinary field whose key is not
"context" is rendered and appended as " key=value" in field order; ordinary
fields keyed "context" are additionally skipped (the skip aimed at the
injected merged-context field also hides caller-supplied fields named
"context"). -/
theorem write_appends_ordinary (fp : Nat → Option String) (c : Core)
    (e : Entry) (fields : List Field) (e' : Entry) (fs' : List Field)
    (ordinary : List Field) (ctx : Context)
    (hw : Write fp c e fields = some (e', fs'))
    (hx : extractCtx c (writeLocFields fp c e fields) = some (ordinary, ctx)) :
    e'.Message = e.Message ++ inlineRender ordinary ∧
    fs' = ordinary ++ [zapObject "context" (.context ctx)] := by
  rw [Write, hx] at hw
  dsimp only [] at hw
  simp only [Option.some.injEq, Prod.mk.injEq] at hw
  obtain ⟨he, hf⟩ := hw
  constructor
  · rw [← he]
    show appendFields e.Message (ordinary ++ [zapObject "context" (.context ctx)]) = _
    rw [appendFields_eq, inlineRender_append]
    simp [inlineRender, zapObject]
  · exact hf.symm

/-- Claim C3, witness for the corrected statement: one ordinary field
"k"="v" is appended; the forwarded list is the ordinary field plus the
context object. -/
theorem write_appends_ordinary_witness :
    ({ Message := "m k=v" } : Entry).Message =
      ({ Message := "m" } : Entry).Message ++ inlineRender [zapString "k" "v"] ∧
    ([zapString "k" "v", zapObject "context" (.context {})] : List Field) =
      [zapString "k" "v"] ++ [zapObject "context" (.context {})] :=
  write_appends_ordinary (fun _ => none) {} { Message := "m" }
    [zapString "k" "v"] { Message := "m k=v" }
    [zapString "k" "v", zapObject "context" (.context {})]
    [zapString "k" "v"] {} (by decide) (by decide)

/-- Claim C4, counterexample: a uint64 field carrying 2^64 - 1 renders as
"-1" (the serializer calls the signed decimal formatter on the int64 slot),
not as the decimal string of the carried unsigned value. -/
theorem render_uint64_cex :
    fieldValueToString (uintField .uint64 "k" (2 ^ 64 - 1)) = "-1" ∧
    toString (2 ^ 64 - 1 : Nat) = "18446744073709551615" ∧
    ("-1" : String) ≠ "18446744073709551615" :=
  ⟨by decide, by decide, by decide⟩

/-- Claim C4, corrected: an unsigned-integer field of any width renders as
the signed decimal of int64(v), the two's-complement reinterpretation of the
carried value; this equals the decimal of the unsigned value exactly when
the value is below 2^63 (always true for the 8/16/32-bit widths), while
uint64 values at or above 2^63 render as negative decimals. -/
theorem render_uint_amended (ty : FieldType) (k : String) (v : Nat)
    (hty : ty = .uint8 ∨ ty = .uint16 ∨ ty = .uint32 ∨ ty = .uint64 ∨
      ty = .uintptr) :
    fieldValueToString (uintField ty k v) = toString (toInt64 v) ∧
    (v < 2 ^ 63 → fieldValueToString (uintField ty k v) = toString v) := by
  have hmain : fieldValueToString (uintField ty k v) = toString (toInt64 v) := by
    rcases hty with h | h | h | h | h <;> subst h <;> rfl
  refine ⟨hmain, fun hv => ?_⟩
  rw [hmain, toInt64, if_pos hv]
  simp [toString]

/-- Claim C4, witness for the corrected statement, at width uint64 and
value 5. -/
theorem render_uint_amended_witness :
    fieldValueToString (uintField .uint64 "k" 5) = toString (toInt64 5) ∧
    (5 < 2 ^ 63 → fieldValueToString (uintField .uint64 "k" 5) =
      toString (5 : Nat)) :=
  render_uint_amended .uint64 "k" 5 (Or.inr (Or.inr (Or.inr (Or.inl rfl))))

/-- Claim C5: `With` is side-effect-free on its receiver and earlier
derivations: in the heap model, every context object allocated before the
call — the receiver's own context and that of any node previously derived
from it — has unchanged contents afterwards, and the new child's context is
a freshly allocated pointer, so mutating the child's context never touches
the parent's. -/
theorem With_no_mutation (h : Heap) (c : CoreH) (fields : List Field)
    (h' : Heap) (c' : CoreH) (fs' : List Field)
    (hw : WithH h c fields = some (h', c', fs')) :
    (∀ p : Ptr, p < h.store.length → h'.get p = h.get p) ∧
    (∀ q : Ptr, c'.ctx = some q → h.store.length ≤ q) := by
  obtain ⟨hp, x, hstore⟩ := cloneCtxH_spec h c
  rw [WithH] at hw
  cases hgo : extractCtxH h c fields with
  | none => rw [hgo] at hw; exact Option.noConfusion hw
  | some res =>
    obtain ⟨h'', o, p'⟩ := res
    rw [hgo] at hw
    dsimp only [] at hw
    simp only [Option.some.injEq, Prod.mk.injEq] at hw
    obtain ⟨hh, hc, hf⟩ := hw
    rw [extractCtxH] at hgo
    obtain ⟨e1, e2, e3⟩ := extractCtxHGo_frame fields [] _ _ _ _ _ hgo
    constructor
    · intro p hlt
      have hne : p ≠ (cloneCtxH h c).2 := by rw [hp]; exact Nat.ne_of_lt hlt
      rw [← hh, e3 p hne]
      simp [Heap.get, hstore, List.getD_eq_getElem?_getD,
        List.getElem?_append_left hlt]
    · intro q hq
      rw [← hc] at hq
      simp only [Option.some.injEq] at hq
      rw [← hq, e1, hp]

/-- Claim C5, witness: deriving a child with a user field from a parent
whose context is allocated at pointer 0 leaves the parent's object
unchanged, and the child's pointer (1) is fresh. -/
theorem With_no_mutation_witness :
    (⟨[{ User := "parent" }, { User := "alice" }]⟩ : Heap).get 0 =
      (⟨[{ User := "parent" }]⟩ : Heap).get 0 ∧
    (⟨[{ User := "parent" }]⟩ : Heap).store.length ≤ 1 :=
  have h := With_no_mutation ⟨[{ User := "parent" }]⟩ { ctx := some 0 }
    [LogUser "alice"] ⟨[{ User := "parent" }, { User := "alice" }]⟩
    { SetReportLocation := false, ctx := some 1 } [] (by decide)
  ⟨h.1 0 (by decide), h.2 1 rfl⟩

/-- Claim C6: a boolean field renders as the integer literal "1"/"0" (not
"true"/"false"), and a duration field renders as its millisecond count with
sub-millisecond precision truncated (Go division truncates toward zero); in
particular 1,500,000 ns renders as "1". -/
theorem render_bool_duration :
    (∀ k, fieldValueToString (boolField k true) = "1") ∧
    (∀ k, fieldValueToString (boolField k false) = "0") ∧
    (∀ k ns, fieldValueToString (durationField k ns) =
      toString (Int.tdiv ns 1000000)) ∧
    (∀ k, fieldValueToString (durationField k 1500000) = "1") :=
  ⟨fun _ => rfl, fun _ => rfl, fun _ _ => rfl, fun _ => rfl⟩

/-- Claim C7: the severity mapper is a total function on the fixed level
set, sending debug to DEBUG, info to INFO, warn to WARNING, error to ERROR,
dpanic to CRITICAL, panic to ALERT and fatal to EMERGENCY; `EncodeLevel`
appends exactly that token to the encoder. -/
theorem logLevelSeverity_total :
    logLevelSeverity .debug = "DEBUG" ∧ logLevelSeverity .info = "INFO" ∧
    logLevelSeverity .warn = "WARNING" ∧ logLevelSeverity .error = "ERROR" ∧
    logLevelSeverity .dpanic = "CRITICAL" ∧
    logLevelSeverity .panic = "ALERT" ∧
    logLevelSeverity .fatal = "EMERGENCY" ∧
    ∀ (lv : Level) (enc : List String),
      EncodeLevel lv enc = enc ++ [logLevelSeverity lv] :=
  ⟨rfl, rfl, rfl, rfl, rfl, rfl, rfl, fun _ _ => rfl⟩

/-- Claim C8: when the location-capture flag is false — for every entry,
caller metadata defined or not — and also when the flag is true but the
entry's caller metadata is undefined, no report location is captured and
`Write` injects no report-location field into its field list. -/
theorem write_no_location_injected (fp : Nat → Option String) (c : Core)
    (e : Entry) (fields : List Field)
    (h : c.SetReportLocation = false ∨ e.Caller.Defined = false) :
    getReportLocationFromEntry fp c e = none ∧
    writeLocFields fp c e fields = fields := by
  have hg : getReportLocationFromEntry fp c e = none := by
    rcases h with h | h <;> simp [getReportLocationFromEntry, h]
  exact ⟨hg, by rw [writeLocFields, hg]⟩

/-- Claim C8, witness: flag false while the caller metadata is defined. -/
theorem write_no_location_injected_witness :
    getReportLocationFromEntry (fun _ => none) {}
      { Message := "m",
        Caller := { Defined := true, File := "a.go", Line := 1, PC := 0 } } =
      none ∧
    writeLocFields (fun _ => none) {}
      { Message := "m",
        Caller := { Defined := true, File := "a.go", Line := 1, PC := 0 } }
      [zapString "k" "v"] = [zapString "k" "v"] :=
  write_no_location_injected _ _ _ _ (Or.inl rfl)

/-- Claim C9: when location capture is enabled and the entry's caller
metadata is defined, the context forwarded by `Write` carries the freshly
captured call-site location in its reportLocation slot — overriding any
caller-supplied context.reportLocation field in the same write and any
reportLocation in the node's base context — because the captured field is
appended after the input fields and the partition is last-write-wins. -/
theorem write_location_overrides (fp : Nat → Option String) (c : Core)
    (e : Entry) (fields : List Field) (e' : Entry) (fs' : List Field)
    (hflag : c.SetReportLocation = true) (hdef : e.Caller.Defined = true)
    (hw : Write fp c e fields = some (e', fs')) :
    ∃ (ordinary : List Field) (ctx : Context),
      extractCtx c (writeLocFields fp c e fields) = some (ordinary, ctx) ∧
      fs' = ordinary ++ [zapObject "context" (.context ctx)] ∧
      ctx.ReportLocation =
        some ⟨e.Caller.File, e.Caller.Line, (fp e.Caller.PC).getD ""⟩ ∧
      getReportLocationFromEntry fp c e =
        some ⟨e.Caller.File, e.Caller.Line, (fp e.Caller.PC).getD ""⟩ := by
  have hg : getReportLocationFromEntry fp c e =
      some ⟨e.Caller.File, e.Caller.Line, (fp e.Caller.PC).getD ""⟩ := by
    rw [getReportLocationFromEntry]
    cases hpc : fp e.Caller.PC <;> simp [hflag, hdef, hpc]
  have hwl : writeLocFields fp c e fields =
      fields ++ [LogReportLocation
        ⟨e.Caller.File, e.Caller.Line, (fp e.Caller.PC).getD ""⟩] := by
    rw [writeLocFields, hg]
  rw [Write] at hw
  cases hx : extractCtx c (writeLocFields fp c e fields) with
  | none => rw [hx] at hw; exact Option.noConfusion hw
  | some pr =>
    obtain ⟨ordinary, ctx⟩ := pr
    rw [hx] at hw
    dsimp only [] at hw
    simp only [Option.some.injEq, Prod.mk.injEq] at hw
    obtain ⟨he, hf⟩ := hw
    refine ⟨ordinary, ctx, rfl, hf.symm, ?_, hg⟩
    rw [hwl, extractCtx, extractCtxGo_append] at hx
    cases hy : extractCtxGo fields [] (cloneCtx c) with
    | none => rw [hy] at hx; exact Option.noConfusion hx
    | some pr2 =>
      obtain ⟨o1, c1⟩ := pr2
      rw [hy] at hx
      dsimp only [] at hx
      rw [extractCtxGo_single_rl] at hx
      simp only [Option.some.injEq, Prod.mk.injEq] at hx
      rw [← hx.2]

/-- Claim C9, witness: the captured location "a.go":42 (function resolved to
"main.fn") overrides both a caller-supplied reportLocation field and the
base context's stored reportLocation. -/
theorem write_location_overrides_witness :
    ∃ (ordinary : List Field) (ctx : Context),
      extractCtx
          ⟨true, some ⟨none, "u", some ⟨"old.go", 1, "old"⟩⟩⟩
          (writeLocFields (fun _ => some "main.fn")
            ⟨true, some ⟨none, "u", some ⟨"old.go", 1, "old"⟩⟩⟩
            ⟨.info, "m", ⟨true, "a.go", 42, 7⟩⟩
            [LogReportLocation ⟨"caller.go", 9, "callerfn"⟩]) =
        some (ordinary, ctx) ∧
      [zapObject "context"
          (.context ⟨none, "u", some ⟨"a.go", 42, "main.fn"⟩⟩)] =
        ordinary ++ [zapObject "context" (.context ctx)] ∧
      ctx.ReportLocation =
        some ⟨"a.go", 42, ((fun _ => some "main.fn") 7).getD ""⟩ ∧
      getReportLocationFromEntry (fun _ => some "main.fn")
          ⟨true, some ⟨none, "u", some ⟨"old.go", 1, "old"⟩⟩⟩
          ⟨.info, "m", ⟨true, "a.go", 42, 7⟩⟩ =
        some ⟨"a.go", 42, ((fun _ => some "main.fn") 7).getD ""⟩ :=
  write_location_overrides (fun _ => some "main.fn")
    ⟨true, some ⟨none, "u", some ⟨"old.go", 1, "old"⟩⟩⟩
    ⟨.info, "m", ⟨true, "a.go", 42, 7⟩⟩
    [LogReportLocation ⟨"caller.go", 9, "callerfn"⟩]
    ⟨.info, "m", ⟨true, "a.go", 42, 7⟩⟩
    [zapObject "context"
      (.context ⟨none, "u", some ⟨"a.go", 42, "main.fn"⟩⟩)]
    rfl rfl (by decide)

/-- Claim C10: a serviceContext-keyed field is never consumed into the
context by the partition: on any successful `extractCtx`, the
serviceContext-keyed fields of the ordinary output are exactly those of the
input, unchanged and in order, and the inline rendering of a serviceContext
field (an object-typed field) is the empty string. -/
theorem serviceContext_passthrough (c : Core) (fields out : List Field)
    (ctx : Context) (h : extractCtx c fields = some (out, ctx)) :
    out.filter (fun f => f.Key == logKeyServiceContext) =
      fields.filter (fun f => f.Key == logKeyServiceContext) ∧
    ∀ sc : ServiceContext, fieldValueToString (LogServiceContext sc) = "" := by
  rw [extractCtx] at h
  have hout := extractCtxGo_output fields [] out (cloneCtx c) ctx h
  rw [List.nil_append] at hout
  constructor
  · rw [hout, List.filter_filter]
    refine List.filter_congr fun f _ => ?_
    by_cases hk : (f.Key == logKeyServiceContext) = true
    · have hk' : f.Key = logKeyServiceContext := by simpa using hk
      have hres : reservedKey logKeyServiceContext = false := by decide
      simp [hk, hk', hres]
    · simp [hk]
  · intro sc
    rfl

/-- Claim C10, witness: a serviceContext field passes through the partition
next to a consumed user field and an ordinary field. -/
theorem serviceContext_passthrough_witness :
    ([LogServiceContext ⟨3⟩, zapString "k" "v"] : List Field).filter
        (fun f => f.Key == logKeyServiceContext) =
      ([LogServiceContext ⟨3⟩, LogUser "alice", zapString "k" "v"] :
          List Field).filter (fun f => f.Key == logKeyServiceContext) ∧
    ∀ sc : ServiceContext, fieldValueToString (LogServiceContext sc) = "" :=
  serviceContext_passthrough {}
    [LogServiceContext ⟨3⟩, LogUser "alice", zapString "k" "v"]
    [LogServiceContext ⟨3⟩, zapString "k" "v"] { User := "alice" } (by decide)

end Stackdriver
